import Mathlib

/-!
Verification development for the repo-ingestor selection and analysis
pipeline.  The Python sources (repo_ingestor/utils.py, config.py, core.py)
are shallowly embedded: paths, patterns and file contents are lists of
characters, Python dicts are insertion-ordered association lists, and the
filesystem seen by os.walk is an explicit tree value.  Fallible dict
indexing is embedded with Except.
-/

/-- Python strings are embedded as lists of characters. -/
abbrev Str := List Char

/-- `path.replace('\\', '/')` applied to one character (utils.py lines 41 and 49). -/
def slashify (c : Char) : Char :=
  if c = '\\' then '/' else c

/-- Python `s.split('/')` (utils.py line 73): splits on every slash, keeping
empty segments; the empty string splits to one empty segment. -/
def splitSlash : Str → List Str
  | [] => [[]]
  | c :: cs =>
    if c = '/' then [] :: splitSlash cs
    else
      match splitSlash cs with
      | s :: ss => (c :: s) :: ss
      | [] => [[c]]

/-- Python `'/'.join(parts)` (utils.py line 75). -/
def joinSlash : List Str → Str
  | [] => []
  | [x] => x
  | x :: xs => x ++ '/' :: joinSlash xs

/-- Scan for the closing bracket of an fnmatch character class, accumulating
the class body; mirrors the `while j < n and pat[j] != ']'` search in
Python's fnmatch.translate. -/
def scanClose (acc : Str) : Str → Option (Str × Str)
  | [] => none
  | c :: cs => if c = ']' then some (acc.reverse, cs) else scanClose (c :: acc) cs

/-- Parse the body of an fnmatch character class given the characters after
`[`.  Returns (negated, class body, remaining pattern); `none` means no
closing bracket exists and `[` is treated literally, exactly as in
fnmatch.translate: an optional leading `!` negates, and a first character
(even `]`) always belongs to the body. -/
def parseClass (ps : Str) : Option (Bool × Str × Str) :=
  match ps with
  | [] => none
  | c :: cs =>
    let neg := c = '!'
    let body := if c = '!' then cs else c :: cs
    match body with
    | [] => none
    | c₀ :: cs₀ =>
      match scanClose [c₀] cs₀ with
      | some (cls, rest) => some (neg, cls, rest)
      | none => none

/-- One character against an fnmatch class body: `a-b` is a range, other
characters (including `-` at either end) match literally, as a regex
character set does. -/
def classMatch (c : Char) : Str → Bool
  | a :: '-' :: b :: rest => (decide (a ≤ c) && decide (c ≤ b)) || classMatch c rest
  | a :: rest => decide (c = a) || classMatch c rest
  | [] => false

/-- Fuel-indexed matcher for Python `fnmatch.fnmatch(s, p)` on POSIX
(case preserved): `*` matches any run of characters including `/`, `?` any
single character, `[...]` a character class, everything else literally, and
the whole string must be consumed.  Every recursive call strictly decreases
`s.length + p.length`, so the fuel wrapper below is total on its bound. -/
def fnmatchF : Nat → Str → Str → Bool
  | 0, _, _ => false
  | fuel + 1, s, p =>
    match p with
    | [] => s.isEmpty
    | c :: ps =>
      if c = '*' then
        fnmatchF fuel s ps ||
          (match s with
           | [] => false
           | _ :: cs => fnmatchF fuel cs ('*' :: ps))
      else if c = '?' then
        match s with
        | [] => false
        | _ :: cs => fnmatchF fuel cs ps
      else if c = '[' then
        match parseClass ps with
        | some (neg, cls, rest) =>
          match s with
          | [] => false
          | c₀ :: cs => (classMatch c₀ cls != neg) && fnmatchF fuel cs rest
        | none =>
          match s with
          | [] => false
          | c₀ :: cs => decide (c₀ = '[') && fnmatchF fuel cs ps
      else
        match s with
        | [] => false
        | c₀ :: cs => decide (c₀ = c) && fnmatchF fuel cs ps

/-- Python `fnmatch.fnmatch(s, p)`. -/
def fnmatch (s p : Str) : Bool :=
  fnmatchF (s.length + p.length + 1) s p

/-- utils.py `matches_any_pattern(path, patterns)` (lines 29-79): normalize
separators, build a variant with a leading `./` stripped, then for each
pattern try the directory-pattern check, the dot-stripped checks, a full
fnmatch, and finally an fnmatch of every suffix of the path's segment
list. -/
def matchesAnyPattern (path : Str) (patterns : List Str) : Bool :=
  let normalized := path.map slashify
  let noDot := if ['.', '/'].isPrefixOf normalized then normalized.drop 2 else normalized
  patterns.any fun pat₀ =>
    let pat := pat₀.map slashify
    let dirHit :=
      if pat.getLast? = some '/' then
        let dirPat := pat.dropLast
        (dirPat ++ ['/']).isPrefixOf normalized || normalized == dirPat ||
          (dirPat ++ ['/']).isPrefixOf noDot || noDot == dirPat
      else false
    let dotHit :=
      if pat.head? = some '.' then
        let noDotPat := pat.drop 1
        fnmatch normalized noDotPat ||
          fnmatch normalized ('*' :: '/' :: noDotPat) ||
          fnmatch normalized (noDotPat ++ ['/', '*'])
      else false
    let parts := splitSlash normalized
    dirHit || dotHit || fnmatch normalized pat ||
      (List.range parts.length).any fun i => fnmatch (joinSlash (parts.drop i)) pat

/-- A normalized relative path: forward slashes only (no backslash), and
every `/`-separated segment is nonempty and is neither `.` nor `..`. -/
def IsNormalizedRelPath (P : Str) : Prop :=
  (∀ c ∈ P, c ≠ '\\') ∧ ∀ s ∈ splitSlash P, s ≠ [] ∧ s ≠ ['.'] ∧ s ≠ ['.', '.']

instance (P : Str) : Decidable (IsNormalizedRelPath P) := by
  unfold IsNormalizedRelPath
  infer_instance

/-! ### The filesystem as seen by os.walk, and find_files (utils.py 81-132) -/

/-- One directory listing, as os.walk sees it: a chain of entries, where a
`file` entry carries the data the walker probes (`st_size`, the binary
probe's outcome, and the decoded text that `get_file_content` would
return), and a `dir` entry carries its own child listing.  The chain order
is the enumeration order of os.walk's `dirnames`/`filenames`. -/
inductive FS where
  | nil : FS
  | file (name : Str) (size : Nat) (isBinary : Bool) (content : Str) (rest : FS) : FS
  | dir (name : Str) (children : FS) (rest : FS) : FS

/-- `os.path.join(a, b)` for forward-slash paths. -/
def osJoin (a b : Str) : Str :=
  if b.head? = some '/' then b
  else if a = [] ∨ a.getLast? = some '/' then a ++ b
  else a ++ '/' :: b

/-- The path of an entry `name` inside the directory whose
`os.path.relpath(dirpath, root)` is `relDir`: this is both
`str(file_path.relative_to(root_dir))` for files and the child's own
relpath for directories (`name` at the root, `relDir/name` below). -/
def relAppend (relDir name : Str) : Str :=
  if relDir = ['.'] then name else relDir ++ '/' :: name

/-- The file loop of find_files (utils.py 114-130) over one directory's
`filenames`: skip excluded files, then oversized files, then keep files
that match an include pattern and pass the binary probe. -/
def walkOwnFiles (incl excl : List Str) (maxKB : Nat) (relDir : Str) : FS → List (Str × Str)
  | .nil => []
  | .file name size isBin content rest =>
    (let rel := relAppend relDir name
     if matchesAnyPattern rel excl then []
     else if decide (size > maxKB * 1024) then []
     else if matchesAnyPattern rel incl && !isBin then [(rel, content)] else []) ++
      walkOwnFiles incl excl maxKB relDir rest
  | .dir _ _ rest => walkOwnFiles incl excl maxKB relDir rest

/-- The directory pruning and descent of find_files (utils.py 90-112): at a
directory of depth `depth`, subdirectories are dropped entirely when
`max_depth` is reached (`dirnames.clear()`), otherwise a subdirectory whose
`os.path.join(rel_dirpath, name)` matches an exclude pattern is pruned;
os.walk then visits each kept subdirectory depth-first, files before
subtrees. -/
def walkSubdirs (incl excl : List Str) (maxKB : Nat) (maxDepth : Option Nat) :
    FS → Str → Nat → List (Str × Str)
  | .nil, _, _ => []
  | .file _ _ _ _ rest, relDir, depth => walkSubdirs incl excl maxKB maxDepth rest relDir depth
  | .dir name children rest, relDir, depth =>
    (let stop := match maxDepth with
      | some m => decide (depth ≥ m)
      | none => false
     if stop then []
     else if matchesAnyPattern (osJoin relDir name) excl then []
     else
       let childRel := relAppend relDir name
       walkOwnFiles incl excl maxKB childRel children ++
         walkSubdirs incl excl maxKB maxDepth children childRel (depth + 1)) ++
      walkSubdirs incl excl maxKB maxDepth rest relDir depth

/-- utils.py `find_files(root_dir, include_patterns, exclude_patterns,
max_size_kb, max_depth)`; each returned pair is (relative path, decoded
content of that file). -/
def findFiles (incl excl : List Str) (maxKB : Nat) (maxDepth : Option Nat) (root : FS) :
    List (Str × Str) :=
  walkOwnFiles incl excl maxKB ['.'] root ++
    walkSubdirs incl excl maxKB maxDepth root ['.'] 0

/-! ### Configuration (config.py) -/

/-- Shorthand: a list of Python strings. -/
def strs (l : List String) : List Str := l.map String.data

/-- Python `suffix in l` ... `l.endswith(suffix)`. -/
def endsWith (l suffix : Str) : Bool := suffix.isSuffixOf l

/-- Python `sub in s` (substring containment). -/
def isSubstr (sub : Str) : Str → Bool
  | [] => sub.isEmpty
  | c :: cs => sub.isPrefixOf (c :: cs) || isSubstr sub cs

/-- The characters after the first occurrence of `sub`. -/
def afterFirstSub (sub : Str) : Str → Str
  | [] => []
  | c :: cs => if sub.isPrefixOf (c :: cs) then (c :: cs).drop sub.length else afterFirstSub sub cs

/-- The characters before the next occurrence of `sub`. -/
def takeUntilSub (sub : Str) : Str → Str
  | [] => []
  | c :: cs => if sub.isPrefixOf (c :: cs) then [] else c :: takeUntilSub sub cs

/-- Python `pattern.split('**/')[1]`, defined when `'**/' in pattern`: the
characters between the first and second occurrences of `**/`. -/
def splitGlobstarSecond (pattern : Str) : Str :=
  takeUntilSub "**/".data (afterFirstSub "**/".data pattern)

/-- The exclude-pattern normalization loop of `Config.__post_init__`
(config.py lines 108-124), applied to one slash-normalized pattern. -/
def normalizeExcludePattern (pattern : Str) : Str :=
  if endsWith pattern ['/'] then pattern
  else if endsWith pattern "/**".data then pattern.take (pattern.length - 3) ++ ['/']
  else if isSubstr "**/".data pattern && !endsWith pattern ['*'] then
    if ".*?[]".data.any (fun c => c ∈ splitGlobstarSecond pattern) then pattern
    else pattern ++ ['/']
  else pattern

/-- `Config.__post_init__` on the common exclude set: separator
normalization then the globstar-directory canonicalization (the Python set
is embedded as a list; only membership matters downstream). -/
def postInitExcludes (pats : List Str) : List Str :=
  (pats.map (List.map slashify)).map normalizeExcludePattern

/-- config.py `LanguageConfig`. -/
structure LanguageConfig where
  name : Str
  extensions : List Str
  include_patterns : List Str
  exclude_patterns : List Str
  config_files : List Str

/-- config.py `Config`, after `__post_init__` has run. -/
structure Config where
  common_include_patterns : List Str
  common_exclude_patterns : List Str
  languages : List (Str × LanguageConfig)
  max_file_size_kb : Nat
  max_depth : Option Nat
  remove_comments : Bool

/-- The `python` LanguageConfig installed by `__post_init__` (config.py 127-133). -/
def pythonLanguageConfig : LanguageConfig :=
  { name := "Python".data
    extensions := strs [".py"]
    include_patterns := strs ["pyproject.toml", "setup.cfg", "pytest.ini", "tox.ini",
      "requirements*.txt"]
    exclude_patterns := []
    config_files := strs ["pyproject.toml", "setup.py", "setup.cfg", "requirements.txt"] }

/-- The `csharp` LanguageConfig installed by `__post_init__` (config.py 136-142). -/
def csharpLanguageConfig : LanguageConfig :=
  { name := "C#".data
    extensions := strs [".cs", ".csproj", ".sln"]
    include_patterns := strs ["*.config", "App.config", "Web.config", "packages.config",
      "*.props", "*.targets"]
    exclude_patterns := []
    config_files := strs ["*.csproj", "*.sln", "packages.config", "NuGet.config"] }

/-- The `react` LanguageConfig installed by `__post_init__` (config.py 145-151). -/
def reactLanguageConfig : LanguageConfig :=
  { name := "React".data
    extensions := strs [".jsx", ".tsx", ".js", ".ts"]
    include_patterns := strs ["package.json", "tsconfig.json", ".babelrc", ".eslintrc*",
      "webpack.config.js", "next.config.js", "vite.config.js"]
    exclude_patterns := strs ["*.d.ts"]
    config_files := strs ["package.json", "tsconfig.json", ".babelrc", "webpack.config.js"] }

/-- The `yaml` LanguageConfig installed by `__post_init__` (config.py 154-171). -/
def yamlLanguageConfig : LanguageConfig :=
  { name := "YAML".data
    extensions := strs [".yml", ".yaml"]
    include_patterns := strs ["docker-compose*.yml", "docker-compose*.yaml",
      ".github/workflows/*.yml", ".github/workflows/*.yaml",
      "kubernetes/*.yml", "kubernetes/*.yaml", "k8s/*.yml", "k8s/*.yaml",
      "helm/**/*.yml", "helm/**/*.yaml", ".gitlab-ci.yml", "cloudbuild.yaml",
      "appveyor.yml", "circle.yml", "travis.yml", ".travis.yml",
      "**/Chart.yaml", "**/values.yaml", "ansible/*.yml", "ansible/*.yaml",
      "*.yaml", "*.yml"]
    exclude_patterns := []
    config_files := strs ["docker-compose.yml", "docker-compose.yaml",
      ".github/workflows/*.yml"] }

/-- Constructing a `Config` runs `__post_init__` (config.py 103-171):
separators are normalized in both common pattern sets, the exclude set gets
the globstar canonicalization, and the four language profiles are installed. -/
def mkConfig (commonInclude commonExclude : List Str) (maxKB : Nat)
    (maxDepth : Option Nat) (removeComments : Bool) : Config :=
  { common_include_patterns := commonInclude.map (List.map slashify)
    common_exclude_patterns := postInitExcludes commonExclude
    languages := [("python".data, pythonLanguageConfig), ("csharp".data, csharpLanguageConfig),
      ("react".data, reactLanguageConfig), ("yaml".data, yamlLanguageConfig)]
    max_file_size_kb := maxKB
    max_depth := maxDepth
    remove_comments := removeComments }

/-- The default common include patterns (config.py 16-28). -/
def defaultCommonIncludePatterns : List Str :=
  strs ["Dockerfile", "docker-compose.yml", ".gitignore", "README.md", "LICENSE",
    ".env.example", "Makefile", "requirements.txt", "package.json", "setup.py", "*.config"]

/-- The default common exclude patterns (config.py 30-95). -/
def defaultCommonExcludePatterns : List Str :=
  strs [".git/", "__pycache__/", "*.pyc", "*.pyd", "*.pyo",
    "*.dll", "*.exe", "*.obj", "*.o", "*.a", "*.lib", "*.so", "*.dylib",
    "*.ncb", "*.sdf", "*.suo", "*.pdb", "*.ipdb", "*.pgc", "*.pgd", "*.rsp",
    "*.sbr", "*.tlb", "*.tli", "*.tlh", "*.tmp", "*.tmp_proj", "*.log",
    "*.vspscc", "*.vssscc", ".builds", "*.pidb", "*.svclog", "*.scc",
    "*.psess", "*.vsp", "*.vspx",
    "**/bin/", "**/obj/", "**/build/", "**/dist/",
    "**/node_modules/",
    "**/.venv/", "**/venv/", "**/env/", "**/.env/", "**/ENV/",
    "**/.DS_Store", "**/Lib/site-packages/"]

/-- `DEFAULT_CONFIG` (config.py 201). -/
def defaultConfig : Config :=
  mkConfig defaultCommonIncludePatterns defaultCommonExcludePatterns 1024 none true

/-- Python `set.add`: append if not already present. -/
def setAdd (l : List Str) (x : Str) : List Str := if x ∈ l then l else l ++ [x]

/-- config.py `Config.add_exclude_pattern` (lines 173-199).  `os.path.isdir`
consults the real filesystem, so it is passed in as an oracle. -/
def addExcludePattern (isdir : Str → Bool) (pats : List Str) (pattern : Str) : List Str :=
  let pattern := pattern.map slashify
  let pattern := if isdir pattern && !endsWith pattern ['/'] then pattern ++ ['/'] else pattern
  let pats := setAdd pats pattern
  let pats := if pattern.head? = some '.' then setAdd pats (pattern.drop 1) else pats
  if !endsWith pattern ['/'] && !endsWith pattern ['*'] then
    if isdir pattern then setAdd pats (pattern ++ "**/*".data)
    else setAdd pats (pattern ++ ['*'])
  else pats

/-! ### Dictionaries, os.path helpers, and the tree structure (core.py) -/

/-- Python dict lookup `m[k]` / `k in m` over an insertion-ordered
association list. -/
def lookupA {α : Type} : List (Str × α) → Str → Option α
  | [], _ => none
  | (k', v) :: rest, k => if k' = k then some v else lookupA rest k

/-- Python dict assignment `m[k] = v`: overwrite in place, else append. -/
def insertA {α : Type} : List (Str × α) → Str → α → List (Str × α)
  | [], k, v => [(k, v)]
  | (k', v') :: rest, k, v =>
    if k' = k then (k', v) :: rest else (k', v') :: insertA rest k v

/-- `os.path.basename` for forward-slash paths: everything after the last
slash. -/
def basenameOf (p : Str) : Str :=
  (p.reverse.takeWhile (fun c => c ≠ '/')).reverse

/-- The extension component of `os.path.splitext(p)[1]`: the suffix of the
basename from its last dot, except that a run of leading dots does not
start an extension. -/
def splitextExt (p : Str) : Str :=
  let b := basenameOf p
  let r := b.dropWhile (fun c => c = '.')
  let afterRev := r.reverse.takeWhile (fun c => c ≠ '.')
  if afterRev.length = r.length then [] else '.' :: afterRev.reverse

/-- Python `s.lower()` per character. -/
def lowerStr (s : Str) : Str := s.map Char.toLower

/-- The value stored in the nested tree dict of `_build_tree_structure`:
`None` for a file, a nested dict for a directory. -/
inductive TreeV where
  | leaf : TreeV
  | dict : List (Str × TreeV) → TreeV

/-- The nested dictionary of `_build_tree_structure`. -/
abbrev TreeA := List (Str × TreeV)

/-- The inner loop of `_build_tree_structure` (core.py 205-217) along the
segments of one path.  Reaching an existing `None` (file) entry while
segments remain reproduces Python's `TypeError` on indexing `None`, embedded
as `Except.error`. -/
def insertTreePath : TreeA → List Str → Except Unit TreeA
  | t, [] => .ok t
  | t, [p] => .ok (insertA t p TreeV.leaf)
  | t, p :: rest =>
    match lookupA t p with
    | none =>
      match insertTreePath [] rest with
      | .ok sub => .ok (insertA t p (TreeV.dict sub))
      | .error e => .error e
    | some (TreeV.dict sub) =>
      match insertTreePath sub rest with
      | .ok sub2 => .ok (insertA t p (TreeV.dict sub2))
      | .error e => .error e
    | some TreeV.leaf => .error ()

/-- core.py `_build_tree_structure` (lines 190-219): split each collected
path on the separator and insert along the chain. -/
def buildTreeStructure (paths : List Str) : Except Unit TreeA :=
  paths.foldlM (fun t p => insertTreePath t (splitSlash p)) []

/-! ### Language handlers and the ingestion environment

Modelled from the spec: the concrete handler classes (language_handlers
base.py, python.py, csharp.py, react.py) are not under src/, and yaml.py's
extractors are regex heuristics outside the verified core.  Following the
spec's Language Handler Interface (§4.3), a handler is its capability set:
contributed include/exclude pattern sets plus opaque dependency/metadata
extractors; `detect_language` probes the real filesystem, so detection
outcomes enter as an oracle in the environment. -/

structure Handler where
  includePatterns : List Str
  excludePatterns : List Str
  analyzeDependencies : List (Str × Str) → List (Str × List Str)
  extractProjectMetadata : List (Str × Str) → List (Str × Str)

/-- One metadata dict value of `_extract_metadata`. -/
inductive MVal where
  | num : Nat → MVal
  | langs : List Str → MVal
  | table : List (Str × List (Str × Str)) → MVal

/-- core.py `RepositoryInfo` (lines 13-23). -/
structure RepositoryInfo where
  root_path : Str
  languages : List Str
  files : List (Str × Str)
  file_dependencies : List (Str × List Str)
  metadata : List (Str × MVal)
  tree_structure : TreeA
  token_info : List (Str × Nat)
  function_info : List (Str × Nat)

/-- The ambient inputs of one `RepositoryIngestor` run that come from
outside core.py: the handler registry (`LANGUAGE_HANDLERS`), each handler's
`detect_language` outcome on this repository, `remove_comments_from_content`
(a per-file text transform, irrelevant to every path-level claim),
`time.time()`, and the opaque function/call-graph analyzer of
`_analyze_functions`. -/
structure IngestEnv where
  registry : List (Str × Handler)
  detects : Str → Bool
  stripComments : Str → Str → Str
  timestamp : Nat
  analyzeFunctions : List (Str × Str) → List (Str × Nat)

/-- Modelled from the spec: `token_utils.estimate_repository_tokens` is not
under src/.  Per §6 the estimator returns a summary holding a total-token
figure over the collected file set (the test suite fixes the key name
`total_tokens`); modelled as a positive per-file estimate of a quarter of
the content length plus one. -/
def estimateRepositoryTokens (files : List (Str × Str)) : List (Str × Nat) :=
  [("total_tokens".data, (files.map (fun fp => fp.2.length / 4 + 1)).sum)]

/-- core.py `_detect_languages` (lines 40-61): probe every registered
handler in registry order, keeping key and handler instance on success. -/
def detectLanguages (env : IngestEnv) : List (Str × Handler) :=
  env.registry.filter (fun e => env.detects e.1)

/-- The detected language keys, in registry order. -/
def detectedLanguages (env : IngestEnv) : List Str :=
  (detectLanguages env).map (fun e => e.1)

/-- core.py `_collect_files` (lines 63-137): union the common and
active-handler pattern sets, walk the tree, then keep a discovered file if
no language is active, or if it matches some active handler's include
pattern, or if it equals a wildcard-free common include pattern; contents
pass through the comment stripper when configured. -/
def collectFiles (cfg : Config) (env : IngestEnv) (repo : FS) (languages : List Str) :
    List (Str × Str) :=
  let handlers := detectLanguages env
  let includePatterns := cfg.common_include_patterns ++
    languages.foldl (fun acc lang =>
      match lookupA handlers lang with
      | some h => acc ++ h.includePatterns
      | none => acc) []
  let excludePatterns := cfg.common_exclude_patterns ++
    languages.foldl (fun acc lang =>
      match lookupA handlers lang with
      | some h => acc ++ h.excludePatterns
      | none => acc) []
  let filePaths := findFiles includePatterns excludePatterns cfg.max_file_size_kb
    cfg.max_depth repo
  filePaths.foldl (fun files fp =>
    let should :=
      if languages.isEmpty then true
      else
        (languages.any fun lang =>
          match lookupA handlers lang with
          | some h => h.includePatterns.any fun pat => matchesAnyPattern fp.1 [pat]
          | none => false) ||
        ((cfg.common_include_patterns.filter fun p =>
            !(p.contains '*') && !(p.contains '?')).any fun p => decide (p = fp.1))
    if should then
      insertA files fp.1 (if cfg.remove_comments then env.stripComments fp.1 fp.2 else fp.2)
    else files) []

/-- The language-filter stage of `ingest` (core.py 301-321): with a truthy
filter and a nonempty detection result, keep the detected languages whose
lowercased key appears in the lowercased filter; otherwise keep all
detected languages. -/
def applyLanguagesFilter (lf : Option (List Str)) (allLangs : List Str) : List Str :=
  match lf with
  | some fl =>
    if !fl.isEmpty && !allLangs.isEmpty then
      allLangs.filter (fun l => (fl.map lowerStr).contains (lowerStr l))
    else allLangs
  | none => allLangs

/-- The progress-tracker description chosen by the language-filter stage
(core.py 308-319); this display string is the only place the
empty-intersection warning goes. -/
def filterStageDescription (lf : Option (List Str)) (allLangs : List Str) : Option Str :=
  match lf with
  | some fl =>
    if !fl.isEmpty && !allLangs.isEmpty then
      let filtered := allLangs.filter (fun l => (fl.map lowerStr).contains (lowerStr l))
      if !filtered.isEmpty then
        some ("Analyzing ".data ++ List.intercalate ", ".data filtered ++ " files...".data)
      else some "No matching languages found with specified filter!".data
    else none
  | none => none

/-- The secondary whitelist pass of `ingest` (core.py 327-360): keep a file
if its full path or basename is a core file, or its lowercased extension is
allowed for some filtered language, or it matches an allowed config-file
pattern. -/
def secondaryFilterFiles (cfg : Config) (languages : List Str) (files : List (Str × Str)) :
    List (Str × Str) :=
  let allowedExtensions := languages.foldl (fun acc lang =>
    match lookupA cfg.languages lang with
    | some lc => acc ++ lc.extensions
    | none => acc) []
  let allowedConfigFiles := languages.foldl (fun acc lang =>
    match lookupA cfg.languages lang with
    | some lc => acc ++ lc.config_files
    | none => acc) []
  let allowedCoreFiles := ["README.md".data, "LICENSE".data]
  files.filter fun fp =>
    allowedCoreFiles.contains fp.1 || allowedCoreFiles.contains (basenameOf fp.1) ||
      allowedExtensions.contains (lowerStr (splitextExt fp.1)) ||
      allowedConfigFiles.any (fun pat => matchesAnyPattern fp.1 [pat])

/-- core.py `_analyze_dependencies` (lines 139-160): merge each active
handler's dependency map, later handlers overwriting on identical keys. -/
def analyzeDependenciesStep (env : IngestEnv) (files : List (Str × Str))
    (languages : List Str) : List (Str × List Str) :=
  let handlers := detectLanguages env
  languages.foldl (fun acc lang =>
    match lookupA handlers lang with
    | some h => (h.analyzeDependencies files).foldl (fun m kv => insertA m kv.1 kv.2) acc
    | none => acc) []

/-- core.py `_extract_metadata` (lines 162-188): timestamp, language list,
file count, and the per-language metadata table. -/
def extractMetadataStep (env : IngestEnv) (files : List (Str × Str))
    (languages : List Str) : List (Str × MVal) :=
  let handlers := detectLanguages env
  let langMeta := languages.foldl (fun acc lang =>
    match lookupA handlers lang with
    | some h => insertA acc lang (h.extractProjectMetadata files)
    | none => acc) []
  [("timestamp".data, MVal.num env.timestamp),
   ("languages".data, MVal.langs languages),
   ("file_count".data, MVal.num files.length),
   ("language_metadata".data, MVal.table langMeta)]

/-- The collected-then-filtered file dict that `ingest` works with
(core.py 323-360): collection always runs over ALL detected languages; the
secondary whitelist applies only when the caller's filter is truthy and the
filtered language list nonempty. -/
def ingestFilesPart (cfg : Config) (env : IngestEnv) (repo : FS)
    (languagesFilter : Option (List Str)) : List (Str × Str) :=
  let allLanguages := detectedLanguages env
  let languages := applyLanguagesFilter languagesFilter allLanguages
  let files0 := collectFiles cfg env repo allLanguages
  let filterTruthy := match languagesFilter with
    | some fl => !fl.isEmpty
    | none => false
  if filterTruthy && !languages.isEmpty then
    secondaryFilterFiles cfg languages files0
  else files0

/-- core.py `ingest` (lines 281-405): detect, filter the language list,
collect over ALL detected languages, apply the secondary whitelist when the
filter is truthy and the filtered list nonempty, then either return the
estimate-only result (empty dependency/function maps, reduced metadata) or
run the full analysis. -/
def ingest (cfg : Config) (env : IngestEnv) (repo : FS) (rootPath : Str)
    (tokenEstimateOnly : Bool) (languagesFilter : Option (List Str)) :
    Except Unit RepositoryInfo :=
  let languages := applyLanguagesFilter languagesFilter (detectedLanguages env)
  let files := ingestFilesPart cfg env repo languagesFilter
  if tokenEstimateOnly then
    match buildTreeStructure (files.map (fun fp => fp.1)) with
    | .ok dummyTree =>
      .ok { root_path := rootPath
            languages := languages
            files := files
            file_dependencies := []
            metadata := [("languages".data, MVal.langs languages),
              ("file_count".data, MVal.num files.length)]
            tree_structure := dummyTree
            token_info := estimateRepositoryTokens files
            function_info := [] }
    | .error e => .error e
  else
    match buildTreeStructure (files.map (fun fp => fp.1)) with
    | .ok tree =>
      .ok { root_path := rootPath
            languages := languages
            files := files
            file_dependencies := analyzeDependenciesStep env files languages
            metadata := extractMetadataStep env files languages
            tree_structure := tree
            token_info := estimateRepositoryTokens files
            function_info := env.analyzeFunctions files }
    | .error e => .error e

/-- Projection helpers for stating concrete results. -/
def resultLanguages (e : Except Unit RepositoryInfo) : Option (List Str) :=
  e.toOption.map (fun r => r.languages)

def resultMetadataKeys (e : Except Unit RepositoryInfo) : Option (List Str) :=
  e.toOption.map (fun r => r.metadata.map (fun kv => kv.1))

def resultFileKeys (e : Except Unit RepositoryInfo) : Option (List Str) :=
  e.toOption.map (fun r => r.files.map (fun kv => kv.1))

def resultFileDependencies (e : Except Unit RepositoryInfo) : Option (List (Str × List Str)) :=
  e.toOption.map (fun r => r.file_dependencies)

def resultFunctionInfo (e : Except Unit RepositoryInfo) : Option (List (Str × Nat)) :=
  e.toOption.map (fun r => r.function_info)

def resultTree (e : Except Unit RepositoryInfo) : Option TreeA :=
  e.toOption.map (fun r => r.tree_structure)

def resultTokenTotal (e : Except Unit RepositoryInfo) : Option Nat :=
  e.toOption.bind (fun r => lookupA r.token_info "total_tokens".data)

/-! ### Concrete fixtures used by counterexamples and witnesses -/

/-- A handler that only contributes include patterns. -/
def trivialHandler (incl : List Str) : Handler :=
  { includePatterns := incl
    excludePatterns := []
    analyzeDependencies := fun _ => []
    extractProjectMetadata := fun _ => [] }

/-- An environment with identity comment stripping and an empty function
analysis, as fixtures need. -/
def mkEnv (registry : List (Str × Handler)) (det : Str → Bool) : IngestEnv :=
  { registry := registry
    detects := det
    stripComments := fun _ content => content
    timestamp := 0
    analyzeFunctions := fun _ => [] }

/-- Fixture: common includes `README.md` and the wildcard `*.config`. -/
def cfgC3 : Config := mkConfig (strs ["README.md", "*.config"]) [] 1024 none false

/-- Fixture: a registered python handler contributing `*.py`, detected. -/
def envC3 : IngestEnv :=
  mkEnv [("python".data, trivialHandler (strs ["*.py"]))] (fun _ => true)

/-- Fixture: the same registry with nothing detected. -/
def envC3w : IngestEnv :=
  mkEnv [("python".data, trivialHandler (strs ["*.py"]))] (fun _ => false)

/-- Fixture: a repository with a config file and a python file at the root. -/
def repoC3 : FS :=
  .file "app.config".data 10 false "cfg".data
    (.file "main.py".data 10 false "pass".data .nil)

/-- Fixture: include `*.py` only. -/
def cfgSmall : Config := mkConfig (strs ["*.py"]) [] 1024 none false

/-- Fixture: empty registry, nothing detected. -/
def envNone : IngestEnv := mkEnv [] (fun _ => false)

/-- Fixture: a detected python handler contributing `*.py`. -/
def envPy : IngestEnv :=
  mkEnv [("python".data, trivialHandler (strs ["*.py"]))] (fun _ => true)

/-- Fixture: one python file at the root. -/
def repoOnePy : FS := .file "main.py".data 20 false "import os".data .nil

/-- Fixture: a detected python handler contributing `*.py` and `*.md`. -/
def envPyMd : IngestEnv :=
  mkEnv [("python".data, trivialHandler (strs ["*.py", "*.md"]))] (fun _ => true)

/-- Fixture: a python file plus a README nested two directories deep. -/
def repoNestedReadme : FS :=
  .file "main.py".data 20 false "import os".data
    (.dir "docs".data
      (.dir "nested".data (.file "README.md".data 30 false "hello".data .nil) .nil)
      .nil)

/-! ### Behavioral checks of the embedded helpers -/

example : fnmatch "a/b/c.js".data "*.js".data = true := by decide
example : fnmatch "node_modules".data "node_modules/".data = false := by decide
example : fnmatch "a.pyc".data "*.pyc".data = true := by decide
example : fnmatch "a.txt".data "a.???".data = true := by decide
example : fnmatch "ab".data "a[b-d]".data = true := by decide
example : fnmatch "ae".data "a[b-d]".data = false := by decide
example : fnmatch "ab".data "a[!b-d]".data = false := by decide
example : fnmatch "a]".data "a[]]".data = true := by decide
example : fnmatch "a[".data "a[".data = true := by decide

example : matchesAnyPattern "foo".data ["foo/".data] = true := by decide
example : matchesAnyPattern "foo/x.py".data ["foo/".data] = true := by decide
example : matchesAnyPattern "./foo/x.py".data ["foo/".data] = true := by decide
example : matchesAnyPattern "a/foo/x.py".data ["foo/".data] = false := by decide
example : matchesAnyPattern "a/b/node_modules".data ["node_modules/".data] = false := by decide
example : matchesAnyPattern "./node_modules".data ["node_modules/".data] = true := by decide
example : matchesAnyPattern "a/b/node_modules/c.js".data ["node_modules/".data] = false := by decide
example : matchesAnyPattern "a/b/node_modules".data ["**/node_modules/".data] = false := by decide
example : matchesAnyPattern "x/y/.venv".data [".venv/".data] = false := by decide
example : matchesAnyPattern ".venv".data [".venv/".data] = true := by decide
example : matchesAnyPattern "b/node_modules/x".data ["node_modules".data] = false := by decide

example : basenameOf "docs/nested/README.md".data = "README.md".data := by decide
example : splitextExt "a/.bashrc".data = [] := by decide
example : splitextExt "b.tar.gz".data = ".gz".data := by decide
example : splitextExt "src/Main.PY".data = ".PY".data := by decide

example :
    findFiles ["*.js".data] ["node_modules/".data] 1024 none
      (.dir "node_modules".data (.file "c.js".data 10 false "x".data .nil) .nil) = [] := by
  decide

example :
    findFiles ["*.js".data] ["node_modules/".data] 1024 none
      (.dir "a".data
        (.dir "b".data
          (.dir "node_modules".data (.file "c.js".data 10 false "x".data .nil) .nil) .nil)
        .nil) =
      [("a/b/node_modules/c.js".data, "x".data)] := by
  decide

example :
    findFiles ["*.js".data] [] 1024 (some 1)
      (.file "a.js".data 5 false "y".data
        (.dir "d".data
          (.file "b.js".data 5 false "z".data
            (.dir "e".data (.file "c.js".data 5 false "w".data .nil) .nil)) .nil)) =
      [("a.js".data, "y".data), ("d/b.js".data, "z".data)] := by
  decide

example :
    findFiles ["*.js".data] [] 0 none (.file "a.js".data 5 false "y".data .nil) = [] := by
  decide

example :
    findFiles ["*.js".data] [] 1024 none (.file "a.js".data 5 true "y".data .nil) = [] := by
  decide

example :
    findFiles ["*.js".data] ["a.js".data] 1024 none
      (.file "a.js".data 5 false "y".data .nil) = [] := by
  decide

example : normalizeExcludePattern "foo/**".data = "foo/".data := by decide
example : normalizeExcludePattern "**/node_modules".data = "**/node_modules/".data := by decide
example : normalizeExcludePattern "**/.DS_Store".data = "**/.DS_Store".data := by decide
example : normalizeExcludePattern "**/bin/".data = "**/bin/".data := by decide
example : normalizeExcludePattern "*.pyc".data = "*.pyc".data := by decide

example :
    buildTreeStructure ["a.py".data, "d/b.py".data] =
      .ok [("a.py".data, TreeV.leaf),
           ("d".data, TreeV.dict [("b.py".data, TreeV.leaf)])] := rfl

/-! ### Basic lemmas about the path helpers -/

theorem map_slashify_id (P : Str) (h : ∀ c ∈ P, c ≠ '\\') : P.map slashify = P := by
  induction P with
  | nil => rfl
  | cons c cs ih =>
    simp only [List.map_cons]
    rw [ih (fun x hx => h x (List.mem_cons_of_mem _ hx))]
    have hc := h c (List.mem_cons_self _ _)
    simp [slashify, hc]

theorem splitSlash_ne_nil (l : Str) : splitSlash l ≠ [] := by
  induction l with
  | nil => simp [splitSlash]
  | cons c cs ih =>
    simp only [splitSlash]
    by_cases hc : c = '/'
    · simp [hc]
    · rw [if_neg hc]
      cases hsp : splitSlash cs with
      | nil => simp
      | cons s ss => simp

theorem slash_not_mem_splitSlash (l : Str) : ∀ s ∈ splitSlash l, '/' ∉ s := by
  induction l with
  | nil =>
    intro s hs
    simp [splitSlash] at hs
    simp [hs]
  | cons c cs ih =>
    intro s hs
    simp only [splitSlash] at hs
    by_cases hc : c = '/'
    · rw [if_pos hc] at hs
      rcases List.mem_cons.mp hs with h | h
      · simp [h]
      · exact ih s h
    · rw [if_neg hc] at hs
      cases hsp : splitSlash cs with
      | nil => exact absurd hsp (splitSlash_ne_nil cs)
      | cons t ts =>
        rw [hsp] at hs
        rcases List.mem_cons.mp hs with h | h
        · subst h
          intro hmem
          rcases List.mem_cons.mp hmem with h' | h'
          · exact hc h'.symm
          · exact ih t (hsp ▸ List.mem_cons_self t ts) h'
        · exact ih s (hsp ▸ List.mem_cons_of_mem t h)

theorem splitSlash_dotSlash (t : Str) :
    splitSlash ('.' :: '/' :: t) = ['.'] :: splitSlash t := by
  simp [splitSlash]

/-- Uniqueness of splitting at the first slash. -/
theorem append_slash_inj (x₁ : Str) : ∀ x₂ r₁ r₂ : Str, '/' ∉ x₁ → '/' ∉ x₂ →
    x₁ ++ '/' :: r₁ = x₂ ++ '/' :: r₂ → x₁ = x₂ ∧ r₁ = r₂ := by
  induction x₁ with
  | nil =>
    intro x₂ r₁ r₂ h₁ h₂ he
    cases x₂ with
    | nil => simpa using he
    | cons b bs =>
      simp only [List.nil_append, List.cons_append, List.cons.injEq] at he
      exact absurd (he.1 ▸ List.mem_cons_self b bs) h₂
  | cons a as ih =>
    intro x₂ r₁ r₂ h₁ h₂ he
    cases x₂ with
    | nil =>
      simp only [List.cons_append, List.nil_append, List.cons.injEq] at he
      exact absurd (he.1.symm ▸ List.mem_cons_self a as) h₁
    | cons b bs =>
      simp only [List.cons_append, List.cons.injEq] at he
      obtain ⟨hab, he'⟩ := he
      obtain ⟨h₃, h₄⟩ := ih bs r₁ r₂ (fun hm => h₁ (List.mem_cons_of_mem _ hm))
        (fun hm => h₂ (List.mem_cons_of_mem _ hm)) he'
      exact ⟨by rw [hab, h₃], h₄⟩

theorem joinSlash_ne_fooSlash (xs : List Str) (hne : ∀ x ∈ xs, x ≠ [])
    (hsl : ∀ x ∈ xs, '/' ∉ x) : joinSlash xs ≠ ['f', 'o', 'o', '/'] := by
  cases xs with
  | nil => simp [joinSlash]
  | cons x ys =>
    cases ys with
    | nil =>
      intro hx
      have hjx : joinSlash [x] = x := rfl
      rw [hjx] at hx
      have := hsl x (List.mem_cons_self _ _)
      rw [hx] at this
      simp at this
    | cons y zs =>
      show x ++ '/' :: joinSlash (y :: zs) ≠ _
      intro hx
      have htgt : (['f', 'o', 'o', '/'] : Str) = ['f', 'o', 'o'] ++ '/' :: [] := rfl
      rw [htgt] at hx
      obtain ⟨hxf, hrest⟩ := append_slash_inj x ['f', 'o', 'o'] _ []
        (hsl x (List.mem_cons_self _ _)) (by decide) hx
      cases zs with
      | nil =>
        have := hne y (List.mem_cons_of_mem _ (List.mem_cons_self _ _))
        exact this (by simpa [joinSlash] using hrest)
      | cons z ws =>
        have : joinSlash (y :: z :: ws) = y ++ '/' :: joinSlash (z :: ws) := rfl
        rw [this] at hrest
        simp at hrest

/-! ### fnmatch on a pattern without wildcards is literal equality -/

theorem fnmatchF_literal : ∀ fuel (s p : Str),
    (∀ c ∈ p, c ≠ '*' ∧ c ≠ '?' ∧ c ≠ '[') → s.length + p.length < fuel →
    fnmatchF fuel s p = decide (s = p) := by
  intro fuel
  induction fuel with
  | zero => intro s p hp hb; omega
  | succ n ih =>
    intro s p hp hb
    cases p with
    | nil =>
      cases s <;> simp [fnmatchF]
    | cons c ps =>
      obtain ⟨hc1, hc2, hc3⟩ := hp c (List.mem_cons_self _ _)
      simp only [fnmatchF, if_neg hc1, if_neg hc2, if_neg hc3]
      cases s with
      | nil =>
        show false = decide (([] : Str) = c :: ps)
        simp
      | cons c₀ cs =>
        show (decide (c₀ = c) && fnmatchF n cs ps) = decide (c₀ :: cs = c :: ps)
        rw [ih cs ps (fun x hx => hp x (List.mem_cons_of_mem _ hx))
          (by simp only [List.length_cons] at hb ⊢; omega)]
        by_cases h : c₀ = c <;> by_cases h' : cs = ps <;> simp [h, h']

theorem fnmatch_literal (s p : Str) (hp : ∀ c ∈ p, c ≠ '*' ∧ c ≠ '?' ∧ c ≠ '[') :
    fnmatch s p = decide (s = p) :=
  fnmatchF_literal _ s p hp (by omega)

/-- C1: for every normalized relative path, the single directory pattern
`foo/` matches exactly the path `foo` itself and the paths below it. -/
theorem c1_dir_pattern_iff (P : Str) (h : IsNormalizedRelPath P) :
    matchesAnyPattern P ["foo/".data] =
      (decide (P = "foo".data) || "foo/".data.isPrefixOf P) := by
  obtain ⟨hbs, hseg⟩ := h
  have hmap : P.map slashify = P := map_slashify_id P hbs
  have hnd : (['.', '/'].isPrefixOf P) = false := by
    rw [Bool.eq_false_iff]
    intro hx
    rw [ List.isPrefixOf_iff_prefix] at hx
    obtain ⟨t, ht⟩ := hx
    have hm : (['.'] : Str) ∈ splitSlash P := by
      rw [← ht]
      rw [show (['.', '/'] : Str) ++ t = '.' :: '/' :: t from rfl]
      rw [splitSlash_dotSlash]
      exact List.mem_cons_self _ _
    exact (hseg _ hm).2.1 rfl
  have hfull : fnmatch P "foo/".data = decide (P = "foo/".data) :=
    fnmatch_literal P _ (by decide)
  have hsuffix : ∀ i, fnmatch (joinSlash ((splitSlash P).drop i)) "foo/".data = false := by
    intro i
    rw [fnmatch_literal _ _ (by decide), decide_eq_false_iff_not]
    exact joinSlash_ne_fooSlash _
      (fun x hx => (hseg x (List.drop_subset _ _ hx)).1)
      (fun x hx => slash_not_mem_splitSlash P x (List.drop_subset _ _ hx))
  have hPnotFooSlash : P ≠ "foo/".data := by
    intro hx
    have hm : ([] : Str) ∈ splitSlash P := by rw [hx]; decide
    exact (hseg _ hm).1 rfl
  rw [Bool.eq_iff_iff]
  simp only [matchesAnyPattern, hmap, hnd, Bool.false_eq_true, if_false,
    List.any_cons, List.any_nil, Bool.or_false]
  simp only [show (List.map slashify "foo/".data) = "foo/".data from rfl,
    eq_true (show "foo/".data.getLast? = some '/' from rfl),
    eq_false (show ¬("foo/".data.head? = some '.') from by decide),
    if_true, if_false,
    show ("foo/".data.dropLast) = "foo".data from rfl,
    show ("foo".data ++ ['/']) = "foo/".data from rfl]
  simp only [hfull, hsuffix, List.any_eq_true, List.mem_range,
    List.isPrefixOf_iff_prefix, Bool.or_eq_true, decide_eq_true_eq, beq_iff_eq,
    Bool.false_eq_true, and_false, exists_false, or_false]
  tauto

/-- Concrete instantiation of C1 at the nested path `foo/x.py`. -/
theorem c1_dir_pattern_iff_witness :
    IsNormalizedRelPath "foo/x.py".data ∧
      matchesAnyPattern "foo/x.py".data ["foo/".data] =
        (decide ("foo/x.py".data = "foo".data) || "foo/".data.isPrefixOf "foo/x.py".data) :=
  ⟨by decide, c1_dir_pattern_iff _ (by decide)⟩

/-! ### C9: globstar canonicalization of exclude patterns -/

theorem getLast_of_endsWith_globstar {p : Str} (h : endsWith p "/**".data = true) :
    p.getLast? = some '*' := by
  unfold endsWith at h
  rw [List.isSuffixOf_iff_suffix] at h
  obtain ⟨t, ht⟩ := h
  rw [← ht, List.getLast?_append]
  rfl

theorem normalizeExcludePattern_no_globstar_suffix (q : Str) :
    endsWith (normalizeExcludePattern q) "/**".data = false := by
  unfold normalizeExcludePattern
  by_cases h1 : endsWith q ['/'] = true
  · rw [if_pos h1]
    rw [Bool.eq_false_iff]
    intro hss
    have h₁ := getLast_of_endsWith_globstar hss
    unfold endsWith at h1
    rw [List.isSuffixOf_iff_suffix] at h1
    obtain ⟨t, ht⟩ := h1
    rw [← ht, List.getLast?_append] at h₁
    simp at h₁
  · rw [if_neg (by simpa using h1)]
    by_cases h2 : endsWith q "/**".data = true
    · rw [if_pos h2]
      rw [Bool.eq_false_iff]
      intro hss
      have h₁ := getLast_of_endsWith_globstar hss
      rw [List.getLast?_append] at h₁
      simp at h₁
    · rw [if_neg (by simpa using h2)]
      by_cases h3 : (isSubstr "**/".data q && !endsWith q ['*']) = true
      · rw [if_pos h3]
        by_cases h4 : (".*?[]".data.any fun c => c ∈ splitGlobstarSecond q) = true
        · rw [if_pos h4]
          rw [Bool.eq_false_iff]
          intro hss
          have h₁ := getLast_of_endsWith_globstar hss
          have h5 : endsWith q ['*'] = true := by
            unfold endsWith
            rw [List.isSuffixOf_iff_suffix]
            cases hq : q.getLast? with
            | none => rw [hq] at h₁; cases h₁
            | some c =>
              rw [hq] at h₁
              obtain ⟨t, ht⟩ := List.getLast?_eq_some_iff.mp hq
              injection h₁ with hc
              exact ⟨t, by rw [ht, hc]⟩
          simp [h5] at h3
        · rw [if_neg (by simpa using h4)]
          rw [Bool.eq_false_iff]
          intro hss
          have h₁ := getLast_of_endsWith_globstar hss
          rw [List.getLast?_append] at h₁
          simp at h₁
      · rw [if_neg (by simpa using h3)]
        simpa using h2

/-- C9 (amended): after construction, no common exclude pattern ends in the
globstar directory marker. -/
theorem c9_post_init_no_globstar_suffix (excl : List Str) (p : Str)
    (hp : p ∈ postInitExcludes excl) : endsWith p "/**".data = false := by
  unfold postInitExcludes at hp
  obtain ⟨q, _, hq⟩ := List.mem_map.mp hp
  rw [← hq]
  exact normalizeExcludePattern_no_globstar_suffix q

theorem c9_post_init_no_globstar_suffix_witness :
    ".git/".data ∈ postInitExcludes defaultCommonExcludePatterns ∧
      endsWith ".git/".data "/**".data = false :=
  ⟨by decide, c9_post_init_no_globstar_suffix defaultCommonExcludePatterns _ (by decide)⟩

/-- C9 (counterexample): a later `add_exclude_pattern("foo/**")` call (with
the pattern not naming an existing directory) leaves a pattern ending in
`/**` in the exclude set, so the claimed invariant does not survive
`add_exclude_pattern`. -/
theorem c9_add_exclude_pattern_cex :
    "foo/**".data ∈
        addExcludePattern (fun _ => false) defaultConfig.common_exclude_patterns "foo/**".data ∧
      endsWith "foo/**".data "/**".data = true := by
  constructor
  · decide
  · decide

/-! ### Inversion lemmas for ingest -/

theorem ingest_estimate_ok (cfg : Config) (env : IngestEnv) (repo : FS) (root : Str)
    (lf : Option (List Str)) (r : RepositoryInfo)
    (h : ingest cfg env repo root true lf = .ok r) :
    r.files = ingestFilesPart cfg env repo lf ∧
      r.languages = applyLanguagesFilter lf (detectedLanguages env) ∧
      r.file_dependencies = [] ∧ r.function_info = [] ∧
      r.metadata = [("languages".data, MVal.langs r.languages),
        ("file_count".data, MVal.num r.files.length)] ∧
      r.token_info = estimateRepositoryTokens r.files ∧
      buildTreeStructure (r.files.map (fun fp => fp.1)) = .ok r.tree_structure := by
  unfold ingest at h
  simp only [if_true, eq_self_iff_true] at h
  split at h
  · injection h with h'
    subst h'
    refine ⟨rfl, rfl, rfl, rfl, rfl, rfl, ?_⟩
    assumption
  · exact absurd h (by simp)

theorem ingest_full_ok (cfg : Config) (env : IngestEnv) (repo : FS) (root : Str)
    (lf : Option (List Str)) (r : RepositoryInfo)
    (h : ingest cfg env repo root false lf = .ok r) :
    r.files = ingestFilesPart cfg env repo lf ∧
      r.languages = applyLanguagesFilter lf (detectedLanguages env) ∧
      r.file_dependencies = analyzeDependenciesStep env r.files r.languages ∧
      r.metadata = extractMetadataStep env r.files r.languages ∧
      r.function_info = env.analyzeFunctions r.files ∧
      r.token_info = estimateRepositoryTokens r.files ∧
      buildTreeStructure (r.files.map (fun fp => fp.1)) = .ok r.tree_structure := by
  unfold ingest at h
  simp only [Bool.false_eq_true, if_false] at h
  split at h
  · injection h with h'
    subst h'
    refine ⟨rfl, rfl, rfl, rfl, rfl, rfl, ?_⟩
    assumption
  · exact absurd h (by simp)

/-! ### C2: nested node_modules is not pruned (code bug evidence) -/

/-- C2 evidence: a directory pattern without trailing-slash stripping never
matches a nested `node_modules` directory, so the walker descends into it
and collects `a/b/node_modules/c.js` whenever an include pattern matches,
contradicting the documented purpose of the partial-path retry loop. -/
theorem c2_nested_node_modules_not_pruned :
    matchesAnyPattern "a/b/node_modules".data ["node_modules/".data] = false ∧
      findFiles ["*.js".data] ["node_modules/".data] 1024 none
        (.dir "a".data (.dir "b".data (.dir "node_modules".data
          (.file "c.js".data 10 false "x".data .nil) .nil) .nil) .nil) =
        [("a/b/node_modules/c.js".data, "x".data)] := by
  exact ⟨by decide, by decide⟩

/-! ### Key-set lemmas for the collection fold -/

theorem keys_insertA {α : Type} (m : List (Str × α)) (k : Str) (v : α) (p : Str) :
    p ∈ (insertA m k v).map Prod.fst ↔ p ∈ m.map Prod.fst ∨ p = k := by
  induction m with
  | nil =>
    simp only [insertA, List.map_cons, List.map_nil, List.mem_singleton,
      List.not_mem_nil, false_or]
  | cons a rest ih =>
    obtain ⟨k', v'⟩ := a
    simp only [insertA]
    by_cases hk : k' = k
    · rw [if_pos hk]
      subst hk
      simp only [List.map_cons, List.mem_cons]
      tauto
    · rw [if_neg hk]
      simp only [List.map_cons, List.mem_cons]
      rw [ih]
      tauto

theorem foldl_insert_keys (g : Str × Str → Str) (l : List (Str × Str)) :
    ∀ (m : List (Str × Str)) (p : Str),
      p ∈ (l.foldl (fun files fp => insertA files fp.1 (g fp)) m).map Prod.fst ↔
        p ∈ m.map Prod.fst ∨ p ∈ l.map Prod.fst := by
  induction l with
  | nil => simp
  | cons a rest ih =>
    intro m p
    simp only [List.foldl_cons]
    rw [ih]
    rw [keys_insertA]
    simp only [List.map_cons, List.mem_cons]
    tauto

theorem collectFiles_nil_keys (cfg : Config) (env : IngestEnv) (repo : FS) (p : Str) :
    p ∈ (collectFiles cfg env repo []).map Prod.fst ↔
      p ∈ (findFiles cfg.common_include_patterns cfg.common_exclude_patterns
        cfg.max_file_size_kb cfg.max_depth repo).map Prod.fst := by
  unfold collectFiles
  simp only [List.foldl_nil, List.append_nil, List.isEmpty_nil, if_true]
  have := foldl_insert_keys
    (fun fp => if cfg.remove_comments then env.stripComments fp.1 fp.2 else fp.2)
    (findFiles cfg.common_include_patterns cfg.common_exclude_patterns
      cfg.max_file_size_kb cfg.max_depth repo) [] p
  rw [this]
  simp

theorem mem_of_mem_secondaryFilterFiles (cfg : Config) (langs : List Str)
    (files : List (Str × Str)) (fp : Str × Str)
    (h : fp ∈ secondaryFilterFiles cfg langs files) : fp ∈ files := by
  unfold secondaryFilterFiles at h
  exact List.mem_of_mem_filter h

/-! ### C3: the per-file gate is keyed to detected languages, not the filter -/

/-- C3 counterexample: with no caller filter but a detected language,
`app.config` is discovered by the walker (it matches the common include
pattern `*.config`) yet dropped from the result, because the
`_collect_files` gate receives the detected-language list. -/
theorem c3_gate_active_without_filter_cex :
    ("app.config".data, "cfg".data) ∈
        findFiles (strs ["README.md", "*.config", "*.py"]) [] 1024 none repoC3 ∧
      resultFileKeys (ingest cfgC3 envC3 repoC3 "root".data false none) =
        some ["main.py".data] := by
  exact ⟨by decide, by decide⟩

/-- C3 (amended): when NO languages are detected, an unfiltered run keeps
every file the walker discovers. -/
theorem c3_no_detected_languages_keeps_all (cfg : Config) (env : IngestEnv) (repo : FS)
    (root p c : Str) (ks : List Str)
    (hdet : detectedLanguages env = [])
    (hp : (p, c) ∈ findFiles cfg.common_include_patterns cfg.common_exclude_patterns
      cfg.max_file_size_kb cfg.max_depth repo)
    (hks : resultFileKeys (ingest cfg env repo root false none) = some ks) :
    p ∈ ks := by
  unfold resultFileKeys at hks
  cases hr : ingest cfg env repo root false none with
  | error e =>
    rw [hr] at hks
    simp [Except.toOption] at hks
  | ok r =>
    rw [hr] at hks
    simp [Except.toOption] at hks
    obtain ⟨hfiles, _⟩ := ingest_full_ok _ _ _ _ _ _ hr
    rw [← hks, hfiles]
    have e₀ : ingestFilesPart cfg env repo none =
        collectFiles cfg env repo (detectedLanguages env) := rfl
    rw [e₀, hdet]
    rw [collectFiles_nil_keys]
    exact List.mem_map.mpr ⟨(p, c), hp, rfl⟩

/-- Concrete instantiation of the amended C3. -/
theorem c3_no_detected_languages_keeps_all_witness :
    detectedLanguages envC3w = [] ∧
      ("app.config".data, "cfg".data) ∈
        findFiles cfgC3.common_include_patterns cfgC3.common_exclude_patterns
          cfgC3.max_file_size_kb cfgC3.max_depth repoC3 ∧
      resultFileKeys (ingest cfgC3 envC3w repoC3 "root".data false none) =
        some ["app.config".data] ∧
      "app.config".data ∈ ["app.config".data] :=
  ⟨by decide, by decide, by decide,
    c3_no_detected_languages_keeps_all cfgC3 envC3w repoC3 "root".data _ "cfg".data _
      (by decide) (by decide) (by decide)⟩

/-! ### C4: language-filter monotonicity -/

/-- C4: the file set of a `python`-filtered run is a subset of the
unfiltered run's file set: both runs collect the same file dict (collection
uses the detected languages), and the filtered run at most shrinks it by
the secondary whitelist pass. -/
theorem c4_language_filter_monotone (cfg : Config) (env : IngestEnv) (repo : FS)
    (root : Str) (ks₁ ks₂ : List Str)
    (h₁ : resultFileKeys (ingest cfg env repo root false (some ["python".data])) = some ks₁)
    (h₂ : resultFileKeys (ingest cfg env repo root false none) = some ks₂) :
    ∀ p, p ∈ ks₁ → p ∈ ks₂ := by
  intro p hp
  unfold resultFileKeys at h₁ h₂
  cases hr₁ : ingest cfg env repo root false (some ["python".data]) with
  | error e =>
    rw [hr₁] at h₁
    simp [Except.toOption] at h₁
  | ok r₁ =>
    cases hr₂ : ingest cfg env repo root false none with
    | error e =>
      rw [hr₂] at h₂
      simp [Except.toOption] at h₂
    | ok r₂ =>
      rw [hr₁] at h₁
      rw [hr₂] at h₂
      simp [Except.toOption] at h₁ h₂
      obtain ⟨hf₁, _⟩ := ingest_full_ok _ _ _ _ _ _ hr₁
      obtain ⟨hf₂, _⟩ := ingest_full_ok _ _ _ _ _ _ hr₂
      rw [← h₁, hf₁] at hp
      rw [← h₂, hf₂]
      have e₂ : ingestFilesPart cfg env repo none =
          collectFiles cfg env repo (detectedLanguages env) := rfl
      rw [e₂]
      set L := applyLanguagesFilter (some ["python".data]) (detectedLanguages env) with hL
      by_cases hLe : L.isEmpty = true
      · have e₁ : ingestFilesPart cfg env repo (some ["python".data]) =
            collectFiles cfg env repo (detectedLanguages env) := by
          simp only [ingestFilesPart]
          rw [← hL]
          simp [hLe]
        rw [e₁] at hp
        exact hp
      · rw [Bool.not_eq_true] at hLe
        have e₁ : ingestFilesPart cfg env repo (some ["python".data]) =
            secondaryFilterFiles cfg L (collectFiles cfg env repo (detectedLanguages env)) := by
          simp only [ingestFilesPart]
          rw [← hL]
          simp [hLe]
        rw [e₁] at hp
        obtain ⟨fp, hin, heq⟩ := List.mem_map.mp hp
        exact List.mem_map.mpr ⟨fp, mem_of_mem_secondaryFilterFiles _ _ _ _ hin, heq⟩

/-- Concrete instantiation of C4: `main.py` survives the python filter and
is indeed in the unfiltered result. -/
theorem c4_language_filter_monotone_witness :
    resultFileKeys (ingest cfgSmall envPy repoOnePy "root".data false
        (some ["python".data])) = some ["main.py".data] ∧
      resultFileKeys (ingest cfgSmall envPy repoOnePy "root".data false none) =
        some ["main.py".data] ∧
      "main.py".data ∈ ["main.py".data] :=
  ⟨by decide, by decide,
    c4_language_filter_monotone cfgSmall envPy repoOnePy "root".data
      ["main.py".data] ["main.py".data]
      (by decide) (by decide) "main.py".data (by decide)⟩

/-! ### Tree-size lemmas for the estimate-only claim -/

theorem length_le_insertA {α : Type} (m : List (Str × α)) (k : Str) (v : α) :
    m.length ≤ (insertA m k v).length := by
  induction m with
  | nil => simp [insertA]
  | cons a rest ih =>
    obtain ⟨k', v'⟩ := a
    simp only [insertA]
    by_cases hk : k' = k
    · rw [if_pos hk]
      simp
    · rw [if_neg hk]
      simp only [List.length_cons]
      omega

theorem insertTreePath_length (t : TreeA) (parts : List Str) (t' : TreeA)
    (h : insertTreePath t parts = .ok t') : t.length ≤ t'.length := by
  cases parts with
  | nil =>
    unfold insertTreePath at h
    injection h with h'
    rw [← h']
  | cons p rest =>
    cases rest with
    | nil =>
      unfold insertTreePath at h
      injection h with h'
      rw [← h']
      exact length_le_insertA t p TreeV.leaf
    | cons q qs =>
      unfold insertTreePath at h
      split at h
      · split at h
        · injection h with h'
          rw [← h']
          exact length_le_insertA t p _
        · exact absurd h (by simp)
      · split at h
        · injection h with h'
          rw [← h']
          exact length_le_insertA t p _
        · exact absurd h (by simp)
      · exact absurd h (by simp)

theorem foldlM_insertTree_length (paths : List Str) :
    ∀ t t' : TreeA,
      List.foldlM (fun t p => insertTreePath t (splitSlash p)) t paths = .ok t' →
      t.length ≤ t'.length := by
  induction paths with
  | nil =>
    intro t t' h
    simp only [List.foldlM_nil, pure] at h
    injection h with h'
    rw [h']
  | cons p ps ih =>
    intro t t' h
    rw [List.foldlM_cons] at h
    cases hstep : insertTreePath t (splitSlash p) with
    | error e =>
      rw [hstep] at h
      simp [Bind.bind, Except.bind] at h
    | ok t1 =>
      rw [hstep] at h
      simp only [Bind.bind, Except.bind] at h
      exact le_trans (insertTreePath_length t _ t1 hstep) (ih t1 t' h)

theorem insertTreePath_nil_nonempty (parts : List Str) (hne : parts ≠ []) (t' : TreeA)
    (h : insertTreePath [] parts = .ok t') : 1 ≤ t'.length := by
  cases parts with
  | nil => exact absurd rfl hne
  | cons p rest =>
    cases rest with
    | nil =>
      unfold insertTreePath at h
      injection h with h'
      rw [← h']
      simp [insertA]
    | cons q qs =>
      unfold insertTreePath at h
      simp only [lookupA] at h
      split at h
      · injection h with h'
        rw [← h']
        simp [insertA]
      · exact absurd h (by simp)

theorem buildTreeStructure_ne_nil (paths : List Str) (t : TreeA)
    (h : buildTreeStructure paths = .ok t) (hne : paths ≠ []) : t ≠ [] := by
  cases paths with
  | nil => exact absurd rfl hne
  | cons p ps =>
    unfold buildTreeStructure at h
    rw [List.foldlM_cons] at h
    cases hstep : insertTreePath [] (splitSlash p) with
    | error e =>
      rw [hstep] at h
      simp [Bind.bind, Except.bind] at h
    | ok t1 =>
      rw [hstep] at h
      simp only [Bind.bind, Except.bind] at h
      have h1 : 1 ≤ t1.length := insertTreePath_nil_nonempty _ (splitSlash_ne_nil p) _ hstep
      have h2 := foldlM_insertTree_length ps t1 t h
      intro hnil
      rw [hnil] at h2
      rw [List.length_nil] at h2
      omega

/-! ### C5: shape of an estimate-only result -/

/-- C5: an estimate-only run with a nonempty final file dict returns empty
dependency and function maps, a nonempty tree, and a positive total-token
figure. -/
theorem c5_estimate_only_shape (cfg : Config) (env : IngestEnv) (repo : FS)
    (root : Str) (lf : Option (List Str)) (ks : List Str)
    (hks : resultFileKeys (ingest cfg env repo root true lf) = some ks)
    (hne : ks ≠ []) :
    resultFileDependencies (ingest cfg env repo root true lf) = some [] ∧
      resultFunctionInfo (ingest cfg env repo root true lf) = some [] ∧
      (∀ t, resultTree (ingest cfg env repo root true lf) = some t → t ≠ []) ∧
      (∃ n, resultTokenTotal (ingest cfg env repo root true lf) = some n ∧ 0 < n) := by
  unfold resultFileKeys at hks
  cases hr : ingest cfg env repo root true lf with
  | error e =>
    rw [hr] at hks
    simp [Except.toOption] at hks
  | ok r =>
    rw [hr] at hks
    simp [Except.toOption] at hks
    obtain ⟨hfiles, hlangs, hdeps, hfuncs, hmeta, htok, htree⟩ :=
      ingest_estimate_ok _ _ _ _ _ _ hr
    have hfne : r.files ≠ [] := by
      intro hx
      rw [hx] at hks
      simp at hks
      exact hne hks
    refine ⟨?_, ?_, ?_, ?_⟩
    · unfold resultFileDependencies
      simp [Except.toOption, hdeps]
    · unfold resultFunctionInfo
      simp [Except.toOption, hfuncs]
    · intro t ht
      unfold resultTree at ht
      simp [Except.toOption] at ht
      rw [← ht]
      exact buildTreeStructure_ne_nil _ _ htree (by simpa using hfne)
    · refine ⟨(r.files.map (fun fp => fp.2.length / 4 + 1)).sum, ?_, ?_⟩
      · unfold resultTokenTotal
        simp [Except.toOption, htok, estimateRepositoryTokens, lookupA]
      · cases hc : r.files with
        | nil => exact absurd hc hfne
        | cons a rest =>
          simp only [hc, List.map_cons, List.sum_cons]
          omega

/-- Concrete instantiation of C5. -/
theorem c5_estimate_only_shape_witness :
    resultFileKeys (ingest cfgSmall envNone repoOnePy "root".data true none) =
        some ["main.py".data] ∧
      (resultFileDependencies (ingest cfgSmall envNone repoOnePy "root".data true none) =
          some [] ∧
        resultFunctionInfo (ingest cfgSmall envNone repoOnePy "root".data true none) =
          some [] ∧
        (∀ t, resultTree (ingest cfgSmall envNone repoOnePy "root".data true none) =
          some t → t ≠ []) ∧
        (∃ n, resultTokenTotal (ingest cfgSmall envNone repoOnePy "root".data true none) =
          some n ∧ 0 < n)) :=
  ⟨by decide,
    c5_estimate_only_shape cfgSmall envNone repoOnePy "root".data none ["main.py".data]
      (by decide) (by decide)⟩

/-! ### C6: empty language-filter intersection -/

/-- C6 counterexample: with detected `python` and filter `csharp`, the run
finishes, `languages` is empty, but the returned metadata holds only the
four standard analysis keys — the "no matching languages" text exists only
as a progress-tracker description, never in the result or its metadata. -/
theorem c6_no_warning_in_result_cex :
    resultLanguages (ingest cfgSmall envPy repoOnePy "root".data false
        (some ["csharp".data])) = some [] ∧
      resultMetadataKeys (ingest cfgSmall envPy repoOnePy "root".data false
        (some ["csharp".data])) =
        some (strs ["timestamp", "languages", "file_count", "language_metadata"]) ∧
      filterStageDescription (some ["csharp".data]) (detectedLanguages envPy) =
        some "No matching languages found with specified filter!".data := by
  exact ⟨by decide, by decide, by decide⟩

/-- C6 (amended): an empty case-insensitive intersection leaves the run
intact: the result's language list is empty, its metadata carries exactly
the standard keys (no warning entry), and the warning text is emitted only
as the progress description. -/
theorem c6_empty_intersection_behavior (cfg : Config) (env : IngestEnv) (repo : FS)
    (root : Str) (fl : List Str)
    (hfl : fl ≠ [])
    (hdet : detectedLanguages env ≠ [])
    (hempty : applyLanguagesFilter (some fl) (detectedLanguages env) = []) :
    (∀ ls, resultLanguages (ingest cfg env repo root false (some fl)) = some ls →
        ls = []) ∧
      (∀ ks, resultMetadataKeys (ingest cfg env repo root false (some fl)) = some ks →
        ks = strs ["timestamp", "languages", "file_count", "language_metadata"]) ∧
      filterStageDescription (some fl) (detectedLanguages env) =
        some "No matching languages found with specified filter!".data := by
  have h1 : fl.isEmpty = false := List.isEmpty_eq_false.mpr hfl
  have h2 : (detectedLanguages env).isEmpty = false := List.isEmpty_eq_false.mpr hdet
  have h3 : (detectedLanguages env).filter
      (fun l => (fl.map lowerStr).contains (lowerStr l)) = [] := by
    have h := hempty
    unfold applyLanguagesFilter at h
    simp only [h1, h2, Bool.not_false, Bool.and_self, eq_self_iff_true, if_true] at h
    exact h
  refine ⟨?_, ?_, ?_⟩
  · intro ls hls
    unfold resultLanguages at hls
    cases hr : ingest cfg env repo root false (some fl) with
    | error e =>
      rw [hr] at hls
      simp [Except.toOption] at hls
    | ok r =>
      rw [hr] at hls
      simp [Except.toOption] at hls
      obtain ⟨_, hlang, _⟩ := ingest_full_ok _ _ _ _ _ _ hr
      rw [← hls, hlang, hempty]
  · intro ks hks
    unfold resultMetadataKeys at hks
    cases hr : ingest cfg env repo root false (some fl) with
    | error e =>
      rw [hr] at hks
      simp [Except.toOption] at hks
    | ok r =>
      rw [hr] at hks
      simp [Except.toOption] at hks
      obtain ⟨_, _, _, hmeta, _⟩ := ingest_full_ok _ _ _ _ _ _ hr
      rw [← hks, hmeta]
      simp [extractMetadataStep, strs]
  · unfold filterStageDescription
    simp only [h1, h2, Bool.not_false, Bool.and_self, eq_self_iff_true, if_true, h3,
      List.isEmpty_nil, Bool.not_true, Bool.false_eq_true, if_false]

/-- Concrete instantiation of the amended C6. -/
theorem c6_empty_intersection_behavior_witness :
    applyLanguagesFilter (some ["csharp".data]) (detectedLanguages envPy) = [] ∧
      ((∀ ls, resultLanguages (ingest cfgSmall envPy repoOnePy "root".data false
          (some ["csharp".data])) = some ls → ls = []) ∧
        (∀ ks, resultMetadataKeys (ingest cfgSmall envPy repoOnePy "root".data false
          (some ["csharp".data])) = some ks →
          ks = strs ["timestamp", "languages", "file_count", "language_metadata"]) ∧
        filterStageDescription (some ["csharp".data]) (detectedLanguages envPy) =
          some "No matching languages found with specified filter!".data) :=
  ⟨by decide,
    c6_empty_intersection_behavior cfgSmall envPy repoOnePy "root".data ["csharp".data]
      (by decide) (by decide) (by decide)⟩

/-! ### C7: metadata fields per mode -/

/-- C7 counterexample: the estimate-only result's metadata has only the
`languages` and `file_count` keys — no timestamp and no per-language
metadata table. -/
theorem c7_estimate_only_metadata_cex :
    resultMetadataKeys (ingest cfgSmall envNone repoOnePy "root".data true none) =
        some (strs ["languages", "file_count"]) ∧
      "timestamp".data ∉ strs ["languages", "file_count"] ∧
      "language_metadata".data ∉ strs ["languages", "file_count"] := by
  exact ⟨by decide, by decide, by decide⟩

/-- C7 (amended): every FULL-analysis result's metadata holds exactly the
timestamp, language list, file count, and per-language metadata keys. -/
theorem c7_full_metadata_fields (cfg : Config) (env : IngestEnv) (repo : FS)
    (root : Str) (lf : Option (List Str)) (ks : List Str)
    (hks : resultMetadataKeys (ingest cfg env repo root false lf) = some ks) :
    ks = strs ["timestamp", "languages", "file_count", "language_metadata"] := by
  unfold resultMetadataKeys at hks
  cases hr : ingest cfg env repo root false lf with
  | error e =>
    rw [hr] at hks
    simp [Except.toOption] at hks
  | ok r =>
    rw [hr] at hks
    simp [Except.toOption] at hks
    obtain ⟨_, _, _, hmeta, _⟩ := ingest_full_ok _ _ _ _ _ _ hr
    rw [← hks, hmeta]
    simp [extractMetadataStep, strs]

/-- Concrete instantiation of the amended C7. -/
theorem c7_full_metadata_fields_witness :
    resultMetadataKeys (ingest cfgSmall envNone repoOnePy "root".data false none) =
        some (strs ["timestamp", "languages", "file_count", "language_metadata"]) ∧
      strs ["timestamp", "languages", "file_count", "language_metadata"] =
        strs ["timestamp", "languages", "file_count", "language_metadata"] :=
  ⟨by decide,
    c7_full_metadata_fields cfgSmall envNone repoOnePy "root".data none _ (by decide)⟩

/-! ### C8: tree round trip -/

/-- C8: building the tree from `a.py`, `d/b.py`, `d/e/c.js` yields exactly
the claimed nesting, files mapped to the leaf marker. -/
theorem c8_tree_round_trip :
    buildTreeStructure ["a.py".data, "d/b.py".data, "d/e/c.js".data] =
      .ok [("a.py".data, TreeV.leaf),
        ("d".data, TreeV.dict [("b.py".data, TreeV.leaf),
          ("e".data, TreeV.dict [("c.js".data, TreeV.leaf)])])] := rfl

/-! ### C10: core files survive the secondary whitelist at any depth -/

/-- C10: when a truthy language filter leaves a nonempty language list,
every collected file whose basename is exactly `README.md` or `LICENSE`
survives the secondary whitelist pass, at any directory depth. -/
theorem c10_core_files_any_depth (cfg : Config) (env : IngestEnv) (repo : FS)
    (root : Str) (b : Bool) (fl : List Str) (p c : Str) (ks : List Str)
    (hfl : fl ≠ [])
    (hlang : applyLanguagesFilter (some fl) (detectedLanguages env) ≠ [])
    (hp : (p, c) ∈ collectFiles cfg env repo (detectedLanguages env))
    (hbase : basenameOf p = "README.md".data ∨ basenameOf p = "LICENSE".data)
    (hks : resultFileKeys (ingest cfg env repo root b (some fl)) = some ks) :
    p ∈ ks := by
  unfold resultFileKeys at hks
  cases hr : ingest cfg env repo root b (some fl) with
  | error e =>
    rw [hr] at hks
    simp [Except.toOption] at hks
  | ok r =>
    rw [hr] at hks
    simp [Except.toOption] at hks
    have hfiles : r.files = ingestFilesPart cfg env repo (some fl) := by
      cases b with
      | false => exact (ingest_full_ok _ _ _ _ _ _ hr).1
      | true => exact (ingest_estimate_ok _ _ _ _ _ _ hr).1
    rw [← hks, hfiles]
    have h1 : fl.isEmpty = false := List.isEmpty_eq_false.mpr hfl
    have h2 : (applyLanguagesFilter (some fl) (detectedLanguages env)).isEmpty = false :=
      List.isEmpty_eq_false.mpr hlang
    have e₁ : ingestFilesPart cfg env repo (some fl) =
        secondaryFilterFiles cfg (applyLanguagesFilter (some fl) (detectedLanguages env))
          (collectFiles cfg env repo (detectedLanguages env)) := by
      simp only [ingestFilesPart]
      simp [h1, h2]
    rw [e₁]
    apply List.mem_map.mpr
    refine ⟨(p, c), ?_, rfl⟩
    unfold secondaryFilterFiles
    apply List.mem_filter.mpr
    refine ⟨hp, ?_⟩
    simp
    have hR : basenameOf p = ['R', 'E', 'A', 'D', 'M', 'E', '.', 'm', 'd'] ∨
        basenameOf p = ['L', 'I', 'C', 'E', 'N', 'S', 'E'] := by
      rcases hbase with hb | hb
      · exact Or.inl (by rw [hb])
      · exact Or.inr (by rw [hb])
    tauto

/-- Concrete instantiation of C10 at `docs/nested/README.md`. -/
theorem c10_core_files_any_depth_witness :
    applyLanguagesFilter (some ["python".data]) (detectedLanguages envPyMd) ≠ [] ∧
      ("docs/nested/README.md".data, "hello".data) ∈
        collectFiles cfgSmall envPyMd repoNestedReadme (detectedLanguages envPyMd) ∧
      resultFileKeys (ingest cfgSmall envPyMd repoNestedReadme "root".data false
        (some ["python".data])) =
        some ["main.py".data, "docs/nested/README.md".data] ∧
      "docs/nested/README.md".data ∈ ["main.py".data, "docs/nested/README.md".data] :=
  ⟨by decide, by decide, by decide,
    c10_core_files_any_depth cfgSmall envPyMd repoNestedReadme "root".data false
      ["python".data] "docs/nested/README.md".data "hello".data
      ["main.py".data, "docs/nested/README.md".data]
      (by decide) (by decide) (by decide) (Or.inl (by decide)) (by decide)⟩
